import Mathlib

/-!
Verification of the status-checker polling engine
(cmd/status-checker/main.go) against its natural-language specification.

The Go program is shallowly embedded: every function below mirrors the
control flow of the corresponding Go function.  Machine integers
(Go int, int64, time.Duration nanoseconds) are modelled as Int — none of
the operations involved can overflow for values reachable by the program.
Go time.Time is modelled by its internal second count since year 1
(the zero time has internal count 0); time.Duration is an Int count of
nanoseconds.  A Go function that can panic is embedded as an
Option-returning function, with none standing for the panic.
-/

/-! ## Go string primitives

Go compares strings byte-wise over their UTF-8 encoding; since UTF-8 is
order-preserving on code points, this is exactly lexicographic order on
the code-point sequence, which is what goStrLtB computes.
strings.Contains is embedded as containsL over the code-point list. -/

def isPrefixL : List Char → List Char → Bool
  | [], _ => true
  | _ :: _, [] => false
  | a :: as, b :: bs => a == b && isPrefixL as bs

def containsL (pat : List Char) : List Char → Bool
  | [] => isPrefixL pat []
  | c :: rest => isPrefixL pat (c :: rest) || containsL pat rest

/-- Embedding of Go strings.Contains. -/
def goContains (s pat : String) : Bool := containsL pat.data s.data

def goStrLtB : List Char → List Char → Bool
  | [], [] => false
  | [], _ :: _ => true
  | _ :: _, [] => false
  | a :: as, b :: bs => if a = b then goStrLtB as bs else decide (a.toNat < b.toNat)

/-- Embedding of the Go string comparison a < b. -/
def goStrLt (a b : String) : Bool := goStrLtB a.data b.data

theorem char_toNat_inj (a b : Char) (h : a.toNat = b.toNat) : a = b :=
  Char.ext (UInt32.ext h)

theorem goStrLtB_trichotomy : ∀ as bs, goStrLtB as bs = true ∨ as = bs ∨ goStrLtB bs as = true := by
  intro as
  induction as with
  | nil => intro bs; cases bs <;> simp [goStrLtB]
  | cons a as ih =>
    intro bs
    cases bs with
    | nil => simp [goStrLtB]
    | cons b bs =>
      by_cases hab : a = b
      · subst hab
        rcases ih bs with h | h | h
        · left; simp [goStrLtB, h]
        · right; left; simp [h]
        · right; right; simp [goStrLtB, h]
      · rcases Nat.lt_trichotomy a.toNat b.toNat with h | h | h
        · left; simp [goStrLtB, hab, h]
        · exact absurd (char_toNat_inj a b h) hab
        · right; right; simp [goStrLtB, Ne.symm hab, h]

theorem goStrLtB_asymm : ∀ as bs, goStrLtB as bs = true → goStrLtB bs as = false := by
  intro as
  induction as with
  | nil => intro bs h; cases bs <;> simp_all [goStrLtB]
  | cons a as ih =>
    intro bs h
    cases bs with
    | nil => simp_all [goStrLtB]
    | cons b bs =>
      by_cases hab : a = b
      · subst hab; simp_all [goStrLtB]
      · simp [goStrLtB, hab] at h
        simp [goStrLtB, Ne.symm hab]
        omega

theorem goStrLtB_trans : ∀ as bs cs, goStrLtB as bs = true → goStrLtB bs cs = true →
    goStrLtB as cs = true := by
  intro as
  induction as with
  | nil =>
    intro bs cs h1 h2
    cases bs <;> cases cs <;> simp_all [goStrLtB]
  | cons a as ih =>
    intro bs cs h1 h2
    cases bs with
    | nil => simp_all [goStrLtB]
    | cons b bs =>
      cases cs with
      | nil => simp_all [goStrLtB]
      | cons c cs =>
        by_cases hab : a = b <;> by_cases hbc : b = c
        · subst hab hbc; simp_all [goStrLtB]; exact ih bs cs h1 h2
        · subst hab; simp_all [goStrLtB]
        · subst hbc; simp_all [goStrLtB]
        · simp [goStrLtB, hab] at h1
          simp [goStrLtB, hbc] at h2
          have hac : a ≠ c := by
            intro h
            subst h
            omega
          simp [goStrLtB, hac]
          omega

/-! ## Go time primitives -/

/-- Seconds between the Go time.Time zero value (Jan 1, year 1) and the
Unix epoch; Go's internal unixToInternal constant. -/
def unixToInternal : Int := 62135596800

/-- Go time.Time, reduced to the wall-clock second count since year 1.
The Go zero value is sec = 0. -/
structure GoTime where
  sec : Int
deriving DecidableEq

/-- Embedding of Go (time.Time).Unix(): seconds since the Unix epoch. -/
def GoTime.Unix (t : GoTime) : Int := t.sec - unixToInternal

/-- Embedding of Go time.Unix(sec, 0). -/
def timeUnix (s : Int) : GoTime := ⟨s + unixToInternal⟩

/-- Nanoseconds per Go time.Millisecond. -/
def millisecond : Int := 1000000

/-- Embedding of Go (time.Duration).Milliseconds(): int64 division
truncating toward zero. -/
def durationMilliseconds (d : Int) : Int := d.tdiv millisecond

/-! ## Data model (main.go lines 257-272)

StatusState mirrors the Go struct field-for-field; LastHealthy and
LastUnhealthy are time.Time values, ResponseTime is a time.Duration in
nanoseconds.  StatusView mirrors the JSON-serialized view struct. -/

structure StatusState where
  Healthy : Bool
  LastHealthy : GoTime
  LastUnhealthy : GoTime
  ResponseCode : Int
  ResponseTime : Int
deriving DecidableEq

structure StatusView where
  Url : String
  Healthy : Bool
  LastHealth : Int
  LastUnhealthy : Int
  ResponseCode : Int
  ResponseTime : Int
deriving DecidableEq

/-- The Go zero value of StatusState. -/
def zeroStatusState : StatusState := ⟨false, ⟨0⟩, ⟨0⟩, 0, 0⟩

/-- StatusState{Healthy: true}: the initial entry parseConfig creates
(main.go line 293); every other field is the Go zero value. -/
def initialStatusState : StatusState := ⟨true, ⟨0⟩, ⟨0⟩, 0, 0⟩

/-! ## The statusState map

The Go map[string]StatusState is modelled as an association list;
mapSet is Go map assignment (replace or append), mapGet is lookup,
mapGetD is a Go map read, which yields the zero value for a missing
key. -/

abbrev StateMap : Type := List (String × StatusState)

def mapSet : StateMap → String → StatusState → StateMap
  | [], k, v => [(k, v)]
  | (k', v') :: rest, k, v =>
      if k' = k then (k, v) :: rest else (k', v') :: mapSet rest k v

def mapGet : StateMap → String → Option StatusState
  | [], _ => none
  | (k', v') :: rest, k => if k' = k then some v' else mapGet rest k

def mapGetD (m : StateMap) (k : String) : StatusState :=
  (mapGet m k).getD zeroStatusState

def mapKeys (m : StateMap) : List String := m.map Prod.fst

/-- parseConfig (main.go lines 277-295): after reading the configured URL
list, one initial all-healthy entry is created per configured URL. -/
def parseConfig (cfg : List String) : StateMap :=
  cfg.foldl (fun m item => mapSet m item initialStatusState) []

/-! ## The probe (checkConfigItem, main.go lines 346-372)

The outcome of http.Get is an explicit input.  In Go, when http.Get
returns a non-nil error the *Response is nil except for redirect-policy
errors, where it is the last response; the resp field below is that
possibly-nil pointer, reduced to its StatusCode.  checkConfigItem
returns none exactly when the Go code dereferences a nil *Response,
which is a nil-pointer panic. -/

inductive HttpResult where
  | ok (statusCode : Int)
  | err (msg : String) (resp : Option Int)
deriving DecidableEq

structure statusUpdate where
  item : String
  state : StatusState
deriving DecidableEq

/-- Embedding of checkConfigItem.  st is the global statusState map read
for the previous per-item state; elapsed is the time.Since value in
nanoseconds; tNow is the time.Now() value stamped on the update. -/
def checkConfigItem (st : StateMap) (item : String) (res : HttpResult)
    (elapsed : Int) (tNow : GoTime) : Option statusUpdate :=
  match res with
  | HttpResult.err msg resp =>
      if !(goContains msg ("connect:")) && !(goContains msg ("dial tcp:"))
          && !(goContains msg ("timeout")) then
        match resp with
        | none => none
        | some code =>
            some ⟨item, ⟨false, (mapGetD st item).LastHealthy, tNow, code, elapsed⟩⟩
      else
        some ⟨item, ⟨false, (mapGetD st item).LastHealthy, tNow, 0, elapsed⟩⟩
  | HttpResult.ok code =>
      some ⟨item, ⟨decide (200 ≤ code ∧ code < 300), tNow,
        (mapGetD st item).LastUnhealthy, code, elapsed⟩⟩

/-- A one-endpoint map in its initial state, for concrete evaluations. -/
def exMapA : StateMap := [(("http://a"), initialStatusState)]

/-- C1: the claim requires that a probe receiving a non-2xx HTTP response
leaves lastHealthyAt unchanged and updates lastUnhealthyAt.  Evaluating
checkConfigItem on an HTTP 503 response at probe time 100 (prior state:
both timestamps at the unset zero time) shows the code does the
opposite: it stamps LastHealthy with the probe time and leaves
LastUnhealthy at its prior value, even though the result is unhealthy. -/
theorem checkConfigItem_non2xx_stamps_lastHealthy :
    checkConfigItem exMapA ("http://a") (HttpResult.ok 503) 5 ⟨100⟩
      = some ⟨("http://a"), ⟨false, ⟨100⟩, ⟨0⟩, 503, 5⟩⟩ ∧
    (⟨100⟩ : GoTime) ≠ (mapGetD exMapA ("http://a")).LastHealthy := by
  decide

/-- C2: the claim requires that the probe never panics.  Evaluating
checkConfigItem on an http.Get error whose message matches none of the
three substrings "connect:", "dial tcp:", "timeout" and whose *Response
is nil (a connection reset during the response, for example) reaches
resp.StatusCode on a nil pointer: a panic, embedded as none. -/
theorem checkConfigItem_nil_deref_panic :
    checkConfigItem exMapA ("http://a")
      (HttpResult.err ("read tcp 10.0.0.1:443: connection reset by peer") none) 5 ⟨100⟩
      = none := by
  decide

/-- C3: the claim requires responseCode = 0 and healthy = false uniformly
for every transport-level failure.  A TLS verification failure is a
transport-level failure (an error with no response received), yet its
message matches none of the three substrings, so the code panics on the
nil response instead of producing any result. -/
theorem checkConfigItem_tls_transport_panic :
    checkConfigItem exMapA ("https://a")
      (HttpResult.err ("tls: failed to verify certificate") none) 7 ⟨100⟩
      = none := by
  decide

/-- For transport failures that do match the substring heuristic, the
code produces the result the claim describes: responseCode 0, healthy
false, elapsed wall time recorded. -/
theorem checkConfigItem_matched_transport_failure (st : StateMap) (item msg : String)
    (elapsed : Int) (tNow : GoTime)
    (h : goContains msg ("connect:") = true ∨ goContains msg ("dial tcp:") = true ∨
      goContains msg ("timeout") = true) :
    checkConfigItem st item (HttpResult.err msg none) elapsed tNow
      = some ⟨item, ⟨false, (mapGetD st item).LastHealthy, tNow, 0, elapsed⟩⟩ := by
  unfold checkConfigItem
  rcases h with h | h | h <;> simp [h]

theorem checkConfigItem_matched_transport_failure_spot :
    goContains ("dial tcp 127.0.0.1:9999: connect: connection refused") ("connect:") = true ∧
    checkConfigItem exMapA ("http://a")
      (HttpResult.err ("dial tcp 127.0.0.1:9999: connect: connection refused") none) 9 ⟨100⟩
      = some ⟨("http://a"), ⟨false, ⟨0⟩, ⟨100⟩, 0, 9⟩⟩ :=
  ⟨by decide,
    checkConfigItem_matched_transport_failure exMapA ("http://a")
      ("dial tcp 127.0.0.1:9999: connect: connection refused") 9 ⟨100⟩ (Or.inl (by decide))⟩

/-! ## The round (updateStatusState, main.go lines 379-396)

The fan-out spawns one goroutine per configured item; each sends exactly
one statusUpdate on the unbuffered channel.  The fan-in loop applies
each received update to the map, counts it, and closes the channel when
the count reaches len(config); the range terminates only on that close.
arrivals is the sequence of updates in channel-delivery order.  recvLoop
returns none when the arrivals are exhausted but the channel was never
closed: the range then blocks forever. -/

def recvLoop (n : Nat) : List statusUpdate → Nat → StateMap → Option StateMap
  | [], _, _ => none
  | u :: rest, count, st =>
      let st' := mapSet st u.item u.state
      if count + 1 = n then some st'
      else recvLoop n rest (count + 1) st'

def updateStatusState (cfg : List String) (arrivals : List statusUpdate)
    (st : StateMap) : Option StateMap :=
  recvLoop cfg.length arrivals 0 st

/-- Sequential application of a batch of updates to the map, one Go map
assignment per update, in delivery order; applying a take-prefix is the
state a concurrent reader observes between two loop iterations. -/
def applyUpdates (st : StateMap) (us : List statusUpdate) : StateMap :=
  us.foldl (fun m u => mapSet m u.item u.state) st

/-! ## Snapshot production (main.go lines 444-464) -/

/-- Embedding of (StatusState).toStatusView. -/
def toStatusView (s : StatusState) (item : String) : StatusView :=
  ⟨item, s.Healthy, s.LastHealthy.Unix, s.LastUnhealthy.Unix,
    s.ResponseCode, durationMilliseconds s.ResponseTime⟩

/-- The sort.Slice postcondition relation: view a may precede view b
exactly when b.Url is not strictly below a.Url in Go string order. -/
def viewLe (a b : StatusView) : Prop := goStrLt b.Url a.Url = false

instance : DecidableRel viewLe :=
  fun a b => inferInstanceAs (Decidable (goStrLt b.Url a.Url = false))

instance : IsTotal StatusView viewLe where
  total a b := by
    cases h : goStrLt b.Url a.Url
    · exact Or.inl h
    · exact Or.inr (goStrLtB_asymm b.Url.data a.Url.data h)

instance : IsTrans StatusView viewLe where
  trans a b c hab hbc := by
    unfold viewLe at *
    by_contra hac
    have hca : goStrLt c.Url a.Url = true := by
      cases h : goStrLt c.Url a.Url
      · exact absurd h hac
      · rfl
    rcases goStrLtB_trichotomy a.Url.data b.Url.data with h | h | h
    · have := goStrLtB_trans c.Url.data a.Url.data b.Url.data hca h
      simp [goStrLt, this] at hbc
    · rw [goStrLt, ← h] at hbc
      exact absurd hca (by simpa [goStrLt] using hbc)
    · simp [goStrLt, h] at hab

/-- Embedding of StatusStatesToView: map the state entries to views,
then sort ascending by url.  sort.Slice is modelled by insertionSort;
on the duplicate-free url sequences a Go map produces, every sort
satisfying the sort.Slice postcondition yields this list. -/
def StatusStatesToView (m : StateMap) : List StatusView :=
  List.insertionSort viewLe (m.map (fun p => toStatusView p.2 p.1))

/-! ## Persistence (main.go lines 398-442)

The JSON layer round-trips the view list exactly (all fields are
strings, booleans and integers), so a successfully written file is
modelled as the view list itself; none models an absent or unreadable
file.  saveStatusState here is the success path of the Go function; its
failure modes are modelled by persistStep below. -/

def saveStatusState (views : List StatusView) : Option (List StatusView) :=
  some views

/-- The state reconstructed from one persisted view
(loadStatusState, main.go lines 431-439). -/
def viewToState (v : StatusView) : StatusState :=
  ⟨v.Healthy, timeUnix v.LastHealth, timeUnix v.LastUnhealthy,
    v.ResponseCode, v.ResponseTime * millisecond⟩

/-- Embedding of loadStatusState: on an absent or unreadable file the map
is left untouched and the error is returned (modelled by the none
result); otherwise every view in the file is written into the map,
whether or not its URL is configured. -/
def loadStatusState (file : Option (List StatusView)) (st : StateMap) :
    StateMap × Option (List StatusView) :=
  match file with
  | none => (st, none)
  | some views =>
      (views.foldl (fun m v => mapSet m v.Url (viewToState v)) st, some views)

/-! ## The persistence step of the polling loop (main.go lines 538-553)

One iteration of the save-with-retry logic, abstracted over the
environment: the outcome of the first save, of os.MkdirAll, and of the
retried save.  enoent is an error for which errors.Is(err,
syscall.ENOENT) holds. -/

inductive SaveErr where
  | enoent
  | other
deriving DecidableEq

structure PersistEnv where
  firstSave : Option SaveErr
  mkdirOk : Bool
  secondSave : Option SaveErr
deriving DecidableEq

structure PersistOutcome where
  saveAttempts : Nat
  mkdirAttempts : Nat
  continued : Bool
deriving DecidableEq

def persistStep (env : PersistEnv) : PersistOutcome :=
  match env.firstSave with
  | none => ⟨1, 0, true⟩
  | some SaveErr.enoent =>
      if env.mkdirOk then ⟨2, 1, true⟩ else ⟨1, 1, true⟩
  | some SaveErr.other => ⟨1, 0, true⟩

/-! ## Map lemmas -/

theorem mapGet_mapSet_self (m : StateMap) (k : String) (v : StatusState) :
    mapGet (mapSet m k v) k = some v := by
  induction m with
  | nil => simp [mapSet, mapGet]
  | cons p rest ih =>
    obtain ⟨k', v'⟩ := p
    by_cases h : k' = k
    · subst h; simp [mapSet, mapGet]
    · simp [mapSet, mapGet, h, ih]

theorem mapGet_mapSet_ne (m : StateMap) (k u : String) (v : StatusState) (h : u ≠ k) :
    mapGet (mapSet m k v) u = mapGet m u := by
  induction m with
  | nil => simp [mapSet, mapGet, Ne.symm h]
  | cons p rest ih =>
    obtain ⟨k', v'⟩ := p
    by_cases h2 : k' = k
    · subst h2
      simp [mapSet, mapGet, Ne.symm h, ih]
    · simp [mapSet, mapGet, h2, ih]

theorem mapGet_mem (m : StateMap) (u : String) (s : StatusState)
    (h : mapGet m u = some s) : (u, s) ∈ m := by
  induction m with
  | nil => simp [mapGet] at h
  | cons p rest ih =>
    obtain ⟨k', v'⟩ := p
    by_cases h2 : k' = u
    · subst h2
      simp [mapGet] at h
      subst h
      exact List.mem_cons_self _ _
    · simp [mapGet, h2] at h
      exact List.mem_cons_of_mem _ (ih h)

theorem mem_mapKeys_of_mem (m : StateMap) (u : String) (s : StatusState)
    (h : (u, s) ∈ m) : u ∈ mapKeys m :=
  List.mem_map_of_mem Prod.fst h

theorem mapGet_of_mem_nodup (m : StateMap) (h : (mapKeys m).Nodup) (u : String)
    (s : StatusState) (hm : (u, s) ∈ m) : mapGet m u = some s := by
  induction m with
  | nil => simp at hm
  | cons p rest ih =>
    obtain ⟨k', v'⟩ := p
    rcases List.mem_cons.mp hm with h2 | h2
    · rw [Prod.mk.injEq] at h2
      obtain ⟨h3, h4⟩ := h2
      simp [mapGet, h3.symm, h4]
    · have hk : k' ≠ u := by
        intro hk
        subst hk
        exact (List.nodup_cons.mp h).1 (mem_mapKeys_of_mem rest k' s h2)
      simp [mapGet, hk]
      exact ih (List.nodup_cons.mp h).2 h2

theorem mem_mapKeys_mapSet (m : StateMap) (k : String) (v : StatusState) (u : String) :
    u ∈ mapKeys (mapSet m k v) ↔ u ∈ mapKeys m ∨ u = k := by
  induction m with
  | nil => simp [mapSet, mapKeys]
  | cons p rest ih =>
    obtain ⟨k', v'⟩ := p
    by_cases h : k' = k
    · subst h
      simp [mapSet, mapKeys]
      tauto
    · simp only [mapSet, if_neg h, mapKeys, List.map_cons, List.mem_cons] at *
      rw [ih]
      tauto

theorem nodup_mapKeys_mapSet (m : StateMap) (k : String) (v : StatusState)
    (h : (mapKeys m).Nodup) : (mapKeys (mapSet m k v)).Nodup := by
  induction m with
  | nil => simp [mapSet, mapKeys]
  | cons p rest ih =>
    obtain ⟨k', v'⟩ := p
    rw [show mapKeys ((k', v') :: rest) = k' :: mapKeys rest from rfl] at h
    obtain ⟨h1, h2⟩ := List.nodup_cons.mp h
    by_cases hk : k' = k
    · subst hk
      simpa [mapSet, mapKeys] using h
    · rw [show mapKeys (mapSet ((k', v') :: rest) k v)
        = k' :: mapKeys (mapSet rest k v) from by simp [mapSet, hk, mapKeys]]
      rw [List.nodup_cons]
      refine ⟨fun hmem => ?_, ih h2⟩
      rcases (mem_mapKeys_mapSet rest k v k').mp hmem with h3 | h3
      · exact h1 h3
      · exact hk h3

/-! ## Batch-application lemmas -/

theorem applyUpdates_nil (st : StateMap) : applyUpdates st [] = st := rfl

theorem applyUpdates_cons (st : StateMap) (u : statusUpdate) (us : List statusUpdate) :
    applyUpdates st (u :: us) = applyUpdates (mapSet st u.item u.state) us := rfl

theorem mapGet_applyUpdates_not_mem (us : List statusUpdate) : ∀ (st : StateMap) (u : String),
    u ∉ us.map statusUpdate.item → mapGet (applyUpdates st us) u = mapGet st u := by
  induction us with
  | nil => intro st u _; rfl
  | cons v us ih =>
    intro st u h
    simp only [List.map_cons, List.mem_cons, not_or] at h
    rw [applyUpdates_cons, ih _ u h.2]
    exact mapGet_mapSet_ne st v.item u v.state h.1

theorem mapGet_applyUpdates_of_mem_nodup (us : List statusUpdate) :
    ∀ (st : StateMap) (u : String) (s : StatusState),
    (us.map statusUpdate.item).Nodup → (⟨u, s⟩ : statusUpdate) ∈ us →
    mapGet (applyUpdates st us) u = some s := by
  induction us with
  | nil => intro st u s _ hm; simp at hm
  | cons v us ih =>
    intro st u s hnd hm
    rw [applyUpdates_cons]
    rw [List.map_cons, List.nodup_cons] at hnd
    rcases List.mem_cons.mp hm with h | h
    · have hitem : v.item = u := by rw [← h]
      have hstate : v.state = s := by rw [← h]
      have hni : u ∉ us.map statusUpdate.item := hitem ▸ hnd.1
      rw [mapGet_applyUpdates_not_mem us _ u hni, ← hitem, ← hstate]
      exact mapGet_mapSet_self st v.item v.state
    · exact ih _ u s hnd.2 h

theorem mapGet_applyUpdates_isSome (us : List statusUpdate) : ∀ (st : StateMap) (u : String),
    (mapGet (applyUpdates st us) u).isSome
      ↔ (mapGet st u).isSome = true ∨ u ∈ us.map statusUpdate.item := by
  induction us with
  | nil => intro st u; simp [applyUpdates]
  | cons v us ih =>
    intro st u
    rw [applyUpdates_cons, ih]
    by_cases h : u = v.item
    · subst h
      simp [mapGet_mapSet_self]
    · rw [mapGet_mapSet_ne st v.item u v.state h]
      simp [h]

theorem nodup_mapKeys_applyUpdates (us : List statusUpdate) : ∀ (st : StateMap),
    (mapKeys st).Nodup → (mapKeys (applyUpdates st us)).Nodup := by
  induction us with
  | nil => intro st h; exact h
  | cons v us ih =>
    intro st h
    rw [applyUpdates_cons]
    exact ih _ (nodup_mapKeys_mapSet st v.item v.state h)

theorem mapGet_applyUpdates_const (c : StatusState) (us : List statusUpdate) :
    ∀ (st : StateMap) (u : String), (∀ x ∈ us, x.state = c) →
    u ∈ us.map statusUpdate.item → mapGet (applyUpdates st us) u = some c := by
  induction us with
  | nil => intro st u _ hm; simp at hm
  | cons v us ih =>
    intro st u hc hm
    rw [applyUpdates_cons]
    by_cases h : u ∈ us.map statusUpdate.item
    · exact ih _ u (fun x hx => hc x (List.mem_cons_of_mem _ hx)) h
    · have hu : u = v.item := by
        simp only [List.map_cons, List.mem_cons] at hm
        rcases hm with h1 | h1
        · exact h1
        · exact absurd h1 h
      subst hu
      rw [mapGet_applyUpdates_not_mem us _ _ h, mapGet_mapSet_self,
        hc v (List.mem_cons_self _ _)]

/-! ## Bridge lemmas: the Go loops as batch applications -/

theorem parseConfig_eq_applyUpdates (cfg : List String) :
    parseConfig cfg
      = applyUpdates [] (cfg.map (fun item => ⟨item, initialStatusState⟩)) := by
  unfold parseConfig applyUpdates
  rw [List.foldl_map]

theorem loadStatusState_fst_eq_applyUpdates (views : List StatusView) (st : StateMap) :
    (loadStatusState (some views) st).1
      = applyUpdates st (views.map (fun v => ⟨v.Url, viewToState v⟩)) := by
  unfold loadStatusState applyUpdates
  rw [List.foldl_map]

/-! ## The receive loop -/

theorem recvLoop_complete (n : Nat) : ∀ (pending : List statusUpdate) (count : Nat)
    (st : StateMap), count + pending.length = n → pending ≠ [] →
    recvLoop n pending count st = some (applyUpdates st pending) := by
  intro pending
  induction pending with
  | nil => intro count st _ hne; exact absurd rfl hne
  | cons u rest ih =>
    intro count st h _
    by_cases hc : count + 1 = n
    · have hr : rest = [] := by
        apply List.eq_nil_of_length_eq_zero
        simp only [List.length_cons] at h
        omega
      subst hr
      simp [recvLoop, hc, applyUpdates]
    · have hr : rest ≠ [] := by
        intro hrr
        subst hrr
        simp only [List.length_cons, List.length_nil] at h
        omega
      simp only [recvLoop, if_neg hc]
      rw [ih (count + 1) (mapSet st u.item u.state)
        (by simp only [List.length_cons] at h; omega) hr]
      rfl

/-! ## Snapshot lemmas -/

theorem string_data_inj (a b : String) (h : a.data = b.data) : a = b := by
  cases a
  cases b
  exact congrArg String.mk h

theorem statusStatesToView_perm (m : StateMap) :
    (StatusStatesToView m).Perm (m.map (fun p => toStatusView p.2 p.1)) :=
  List.perm_insertionSort viewLe _

theorem mem_statusStatesToView (m : StateMap) (w : StatusView) :
    w ∈ StatusStatesToView m ↔ ∃ p ∈ m, toStatusView p.2 p.1 = w := by
  rw [(statusStatesToView_perm m).mem_iff, List.mem_map]

theorem statusStatesToView_urls_perm (m : StateMap) :
    ((StatusStatesToView m).map StatusView.Url).Perm (mapKeys m) := by
  have h := (statusStatesToView_perm m).map StatusView.Url
  rw [List.map_map] at h
  exact h

theorem statusStatesToView_sorted (m : StateMap) :
    List.Sorted viewLe (StatusStatesToView m) :=
  List.sorted_insertionSort viewLe _

/-- C8: every produced snapshot is sorted strictly ascending by url in
the Go string order: each adjacent pair of views has the first url
lexicographically below the second, whatever the map iteration order
was, provided the map keys are duplicate-free (which every map reachable
by the program is). -/
theorem statusStatesToView_strictly_sorted (m : StateMap) (h : (mapKeys m).Nodup) :
    List.Chain' (fun a b : StatusView => goStrLt a.Url b.Url = true)
      (StatusStatesToView m) := by
  have hs : List.Pairwise viewLe (StatusStatesToView m) := statusStatesToView_sorted m
  have hn : ((StatusStatesToView m).map StatusView.Url).Nodup :=
    (statusStatesToView_urls_perm m).nodup_iff.mpr h
  rw [List.Nodup, List.pairwise_map] at hn
  refine List.Pairwise.chain' ((hs.and hn).imp ?_)
  intro a b hab
  rcases goStrLtB_trichotomy a.Url.data b.Url.data with h1 | h1 | h1
  · exact h1
  · exact absurd (string_data_inj _ _ h1) hab.2
  · have h2 : goStrLt b.Url a.Url = false := hab.1
    rw [goStrLt] at h2
    rw [h2] at h1
    exact absurd h1 (by simp)

/-- A two-endpoint map for concrete evaluations. -/
def exMapAB : StateMap :=
  [(("http://b"), initialStatusState), (("http://a"), initialStatusState)]

theorem statusStatesToView_strictly_sorted_witness :
    (mapKeys exMapAB).Nodup ∧
    List.Chain' (fun a b : StatusView => goStrLt a.Url b.Url = true)
      (StatusStatesToView exMapAB) :=
  ⟨by decide, statusStatesToView_strictly_sorted exMapAB (by decide)⟩

/-! ## Mid-round snapshots (C5)

The Go fan-in loop (main.go lines 389-395) writes each result into the
shared map as it arrives, with no lock; a snapshot taken by a concurrent
HTTP or websocket handler between two loop iterations reads the map with
the first k results of the round applied.  Under a sequentially
consistent interleaving this observed state is applyUpdates st
(us.take k). -/

/-- C5 counterexample: with two endpoints whose results arrive one after
the other, the snapshot taken after the first write differs from the
pre-round snapshot and from the post-round snapshot — a reader can
observe a partially applied round. -/
def exState5 : StatusState := ⟨false, ⟨0⟩, ⟨200⟩, 500, 7000000⟩

def exUs5 : List statusUpdate :=
  [⟨("http://a"), exState5⟩, ⟨("http://b"), exState5⟩]

theorem midround_snapshot_mixture :
    StatusStatesToView (applyUpdates exMapAB (exUs5.take 1))
      ≠ StatusStatesToView exMapAB ∧
    StatusStatesToView (applyUpdates exMapAB (exUs5.take 1))
      ≠ StatusStatesToView (applyUpdates exMapAB exUs5) := by
  decide

/-- C5, amended: round application is not atomic — a concurrent snapshot
observes the state with some prefix of the round's results applied, and
may mix pre- and post-round values across endpoints — but for each
single endpoint the observed value is either its pre-round or its
post-round value, because each endpoint is written at most once per
round. -/
theorem midround_snapshot_per_endpoint (st : StateMap) (us : List statusUpdate)
    (k : Nat) (u : String) (h : (us.map statusUpdate.item).Nodup) :
    mapGet (applyUpdates st (us.take k)) u = mapGet st u ∨
    mapGet (applyUpdates st (us.take k)) u = mapGet (applyUpdates st us) u := by
  by_cases hm : u ∈ (us.take k).map statusUpdate.item
  · right
    obtain ⟨x, hx, hxu⟩ := List.mem_map.mp hm
    have hxx : (⟨u, x.state⟩ : statusUpdate) = x := by
      cases x
      simp only at hxu
      rw [hxu]
    have hnd : ((us.take k).map statusUpdate.item).Nodup :=
      ((List.take_sublist k us).map statusUpdate.item).nodup h
    have hx1 : (⟨u, x.state⟩ : statusUpdate) ∈ us.take k := by
      rw [hxx]
      exact hx
    have hx2 : (⟨u, x.state⟩ : statusUpdate) ∈ us := by
      rw [hxx]
      exact (List.take_sublist k us).subset hx
    have h1 : mapGet (applyUpdates st (us.take k)) u = some x.state :=
      mapGet_applyUpdates_of_mem_nodup _ _ _ _ hnd hx1
    have h2 : mapGet (applyUpdates st us) u = some x.state :=
      mapGet_applyUpdates_of_mem_nodup _ _ _ _ h hx2
    rw [h1, h2]
  · left
    exact mapGet_applyUpdates_not_mem _ _ _ hm

theorem midround_snapshot_per_endpoint_witness :
    (exUs5.map statusUpdate.item).Nodup ∧
    (mapGet (applyUpdates exMapAB (exUs5.take 1)) ("http://a")
        = mapGet exMapAB ("http://a") ∨
      mapGet (applyUpdates exMapAB (exUs5.take 1)) ("http://a")
        = mapGet (applyUpdates exMapAB exUs5) ("http://a")) :=
  ⟨by decide, midround_snapshot_per_endpoint exMapAB exUs5 1 ("http://a") (by decide)⟩

/-! ## Round termination (C9) -/

/-- C9: with every goroutine of the round delivering exactly one result
(arrivals has one entry per configured item), the fan-in loop terminates
precisely for a non-empty configuration, returning the state with all
len(config) results applied; for the empty configuration no message ever
arrives, the channel is never closed — close is only reached inside the
receive loop body — and the loop blocks forever. -/
theorem updateStatusState_terminates_iff (cfg : List String)
    (arrivals : List statusUpdate) (st : StateMap)
    (h : arrivals.length = cfg.length) :
    (cfg = [] → updateStatusState cfg arrivals st = none) ∧
    (cfg ≠ [] → updateStatusState cfg arrivals st
      = some (applyUpdates st arrivals)) := by
  constructor
  · intro hc
    subst hc
    have ha : arrivals = [] := List.eq_nil_of_length_eq_zero (by simpa using h)
    subst ha
    rfl
  · intro hc
    have ha : arrivals ≠ [] := by
      intro haa
      subst haa
      exact hc (List.eq_nil_of_length_eq_zero h.symm)
    exact recvLoop_complete cfg.length arrivals 0 st (by omega) ha

theorem updateStatusState_terminates_iff_witness :
    ([⟨("http://a"), exState5⟩] : List statusUpdate).length
        = [("http://a")].length ∧
    ((["http://a"] = ([] : List String) →
        updateStatusState [("http://a")] [⟨("http://a"), exState5⟩] [] = none) ∧
      (["http://a"] ≠ ([] : List String) →
        updateStatusState [("http://a")] [⟨("http://a"), exState5⟩] []
          = some (applyUpdates [] [⟨("http://a"), exState5⟩]))) :=
  ⟨by decide, updateStatusState_terminates_iff _ _ _ (by decide)⟩

/-! ## Restore (C4) -/

/-- A persisted view for a URL that is not in the configuration. -/
def exViewB : StatusView := ⟨("http://b"), false, 5, 6, 503, 7⟩

/-- C4 counterexample: restoring a snapshot that contains a URL absent
from the configuration ["http://a"] creates a HealthState entry for that
URL — the loop in loadStatusState writes every persisted view into the
map without consulting the configured set. -/
theorem loadStatusState_creates_unconfigured_entry :
    ("http://b") ∉ [("http://a")] ∧
    mapGet (loadStatusState (some [exViewB]) (parseConfig [("http://a")])).1
        ("http://b")
      = some (viewToState exViewB) := by
  decide

/-- C4, amended: after a successful restore the entry set is the
configured set united with the set of persisted URLs — every URL in the
persisted snapshot gets an entry, whether or not it is configured, and
no other entry appears or disappears. -/
theorem loadStatusState_entry_set (views : List StatusView) (st : StateMap)
    (u : String) :
    (mapGet (loadStatusState (some views) st).1 u).isSome
      ↔ (mapGet st u).isSome = true ∨ u ∈ views.map StatusView.Url := by
  rw [loadStatusState_fst_eq_applyUpdates, mapGet_applyUpdates_isSome,
    List.map_map]
  rfl

/-! ## Persistence round trip (C6) -/

theorem toStatusView_viewToState (v : StatusView) :
    toStatusView (viewToState v) v.Url = v := by
  obtain ⟨url, healthy, lh, lu, rc, rt⟩ := v
  simp only [toStatusView, viewToState, GoTime.Unix, timeUnix,
    durationMilliseconds, StatusView.mk.injEq]
  refine ⟨trivial, trivial, by omega, by omega, trivial, ?_⟩
  exact Int.mul_tdiv_cancel rt (by decide)

/-- C6: persisting a snapshot produced from any duplicate-key-free state
map, restoring it into any state map, and snapshotting again reproduces
every persisted view exactly: the view with the same url in the new
snapshot is field-for-field the original one.  The persisted timestamps
are epoch seconds and response times epoch milliseconds, and the restore
reconstruction loses nothing beyond what the original snapshot had
already truncated. -/
theorem persist_restore_roundtrip (st st0 : StateMap)
    (h : (mapKeys st).Nodup) (h0 : (mapKeys st0).Nodup) (v : StatusView)
    (hv : v ∈ StatusStatesToView st) :
    v ∈ StatusStatesToView
        (loadStatusState (saveStatusState (StatusStatesToView st)) st0).1 ∧
    ∀ w ∈ StatusStatesToView
        (loadStatusState (saveStatusState (StatusStatesToView st)) st0).1,
      w.Url = v.Url → w = v := by
  have hsave : saveStatusState (StatusStatesToView st)
      = some (StatusStatesToView st) := rfl
  rw [hsave, loadStatusState_fst_eq_applyUpdates]
  set snap := StatusStatesToView st with hsnap
  set us := snap.map (fun v => (⟨v.Url, viewToState v⟩ : statusUpdate)) with hus
  have husitems : us.map statusUpdate.item = snap.map StatusView.Url := by
    rw [hus, List.map_map]
    rfl
  have hsnodup : (snap.map StatusView.Url).Nodup :=
    (statusStatesToView_urls_perm st).nodup_iff.mpr h
  have husnodup : (us.map statusUpdate.item).Nodup := husitems ▸ hsnodup
  have hvus : (⟨v.Url, viewToState v⟩ : statusUpdate) ∈ us :=
    List.mem_map_of_mem _ hv
  have hget : mapGet (applyUpdates st0 us) v.Url = some (viewToState v) :=
    mapGet_applyUpdates_of_mem_nodup _ _ _ _ husnodup hvus
  have hknodup : (mapKeys (applyUpdates st0 us)).Nodup :=
    nodup_mapKeys_applyUpdates us st0 h0
  constructor
  · rw [mem_statusStatesToView]
    exact ⟨(v.Url, viewToState v), mapGet_mem _ _ _ hget,
      toStatusView_viewToState v⟩
  · intro w hw hwu
    obtain ⟨p, hp, hpw⟩ := (mem_statusStatesToView _ w).mp hw
    have hpu : p.1 = v.Url := by
      rw [← hwu, ← hpw]
      rfl
    have hpget : mapGet (applyUpdates st0 us) p.1 = some p.2 :=
      mapGet_of_mem_nodup _ hknodup _ _ (by cases p; exact hp)
    rw [hpu, hget] at hpget
    have hp2 : p.2 = viewToState v := by
      injection hpget.symm
    rw [← hpw, hp2, hpu, toStatusView_viewToState]

/-- A one-entry state map with a probed state, for concrete evaluation. -/
def exMap6 : StateMap := [(("http://a"), exState5)]

theorem persist_restore_roundtrip_witness :
    (mapKeys exMap6).Nodup ∧
    (mapKeys ([] : StateMap)).Nodup ∧
    toStatusView exState5 ("http://a") ∈ StatusStatesToView exMap6 ∧
    (toStatusView exState5 ("http://a") ∈ StatusStatesToView
        (loadStatusState (saveStatusState (StatusStatesToView exMap6)) []).1 ∧
      ∀ w ∈ StatusStatesToView
          (loadStatusState (saveStatusState (StatusStatesToView exMap6)) []).1,
        w.Url = (toStatusView exState5 ("http://a")).Url
          → w = toStatusView exState5 ("http://a")) :=
  ⟨by decide, by decide, by decide,
    persist_restore_roundtrip exMap6 [] (by decide) (by decide) _ (by decide)⟩

/-! ## Save-with-retry (C7) -/

/-- C7 counterexample: when the first save fails with ENOENT and the
directory creation itself fails, the write is not retried at all — the
claimed "never zero times" does not hold. -/
theorem persistStep_no_retry_on_mkdir_failure :
    (persistStep ⟨some SaveErr.enoent, false, none⟩).saveAttempts = 1 ∧
    ¬ (persistStep ⟨some SaveErr.enoent, false, none⟩).saveAttempts = 2 := by
  decide

/-- C7, amended: on an ENOENT failure of the save, the directory creation
is attempted exactly once and the save is retried exactly once if the
creation succeeds and not at all if it fails; on every other outcome
(success or non-ENOENT failure) there is exactly one save attempt and no
directory creation; in every case — including a failing retry — the loop
continues to the broadcast step. -/
theorem persistStep_retry (env : PersistEnv) :
    (persistStep env).continued = true ∧
    (persistStep env).mkdirAttempts
      = (if env.firstSave = some SaveErr.enoent then 1 else 0) ∧
    (persistStep env).saveAttempts
      = (if env.firstSave = some SaveErr.enoent then
          (if env.mkdirOk then 2 else 1) else 1) := by
  obtain ⟨f, mk, s⟩ := env
  cases f with
  | none => simp [persistStep]
  | some e => cases e <;> cases mk <;> simp [persistStep]

/-! ## Initial never-probed state (C10) -/

/-- C10: every configured endpoint starts with the all-healthy zero
state, and the view of that state reports both timestamps as the Unix
seconds of the Go zero time, -62135596800, with healthy true,
responseCode 0 and responseTime 0. -/
theorem initial_entry_view (cfg : List String) (u : String) (h : u ∈ cfg) :
    mapGet (parseConfig cfg) u = some initialStatusState ∧
    toStatusView initialStatusState u
      = ⟨u, true, -62135596800, -62135596800, 0, 0⟩ := by
  constructor
  · rw [parseConfig_eq_applyUpdates]
    apply mapGet_applyUpdates_const initialStatusState
    · intro x hx
      obtain ⟨it, _, hit⟩ := List.mem_map.mp hx
      rw [← hit]
    · rw [List.map_map]
      simpa using h
  · have h1 : (⟨0⟩ : GoTime).Unix = -62135596800 := by decide
    have h2 : durationMilliseconds 0 = 0 := by decide
    simp [toStatusView, initialStatusState, h1, h2]

theorem initial_entry_view_witness :
    ("http://a") ∈ [("http://a")] ∧
    (mapGet (parseConfig [("http://a")]) ("http://a")
        = some initialStatusState ∧
      toStatusView initialStatusState ("http://a")
        = ⟨("http://a"), true, -62135596800, -62135596800, 0, 0⟩) :=
  ⟨by decide, initial_entry_view [("http://a")] ("http://a") (by decide)⟩
